import Mathlib

/-!
Shallow embedding of `cmdy` (src/main.rs), a personal command-runner CLI.
File I/O is modelled as a map from paths to stored JSON values; `serde`
(de)serialization of the `Config` struct is modelled structurally on a JSON
value AST; panics (`expect`/`unwrap`) are modelled as `Option.none`.
-/

namespace Cmdy

/-- Rust struct `CommandSet` with `name` and `commands`, from src/main.rs. -/
structure CommandSet where
  name : String
  commands : List String
deriving DecidableEq, Repr

/-- Rust struct `Config` with `directories` and `command_sets`, from src/main.rs. -/
structure Config where
  directories : List String
  command_sets : List CommandSet
deriving DecidableEq, Repr

/-- JSON value AST, the structural target of serde (de)serialization. -/
inductive JValue where
  | null
  | bool (b : Bool)
  | num (n : Int)
  | str (s : String)
  | arr (xs : List JValue)
  | obj (fields : List (String × JValue))
deriving Repr

/-- serde serialization of `CommandSet` (derived `Serialize`). -/
def encodeCommandSet (s : CommandSet) : JValue :=
  .obj [("name", .str s.name), ("commands", .arr (s.commands.map .str))]

/-- serde serialization of `Config` (derived `Serialize`). -/
def encodeConfig (c : Config) : JValue :=
  .obj [("directories", .arr (c.directories.map .str)),
        ("command_sets", .arr (c.command_sets.map encodeCommandSet))]

/-- Field lookup in a deserialized JSON object (first occurrence). -/
def jLookup (fields : List (String × JValue)) (k : String) : Option JValue :=
  (fields.find? (fun p => p.1 == k)).map (fun p => p.2)

/-- Option-valued traversal, used for decoding JSON arrays elementwise. -/
def traverseOpt (f : α → Option β) : List α → Option (List β)
  | [] => some []
  | a :: as =>
    match f a with
    | none => none
    | some b =>
      match traverseOpt f as with
      | none => none
      | some bs => some (b :: bs)

/-- Decode a JSON string. -/
def decodeStr : JValue → Option String
  | .str s => some s
  | _ => none

/-- Decode a JSON array of strings. -/
def decodeStrList : JValue → Option (List String)
  | .arr xs => traverseOpt decodeStr xs
  | _ => none

/-- serde deserialization of `CommandSet` (derived `Deserialize`). -/
def decodeCommandSet : JValue → Option CommandSet
  | .obj fields =>
    match jLookup fields "name" with
    | none => none
    | some jn =>
      match decodeStr jn with
      | none => none
      | some n =>
        match jLookup fields "commands" with
        | none => none
        | some jc =>
          match decodeStrList jc with
          | none => none
          | some cs => some { name := n, commands := cs }
  | _ => none

/-- Decode a JSON array of command sets. -/
def decodeSetList : JValue → Option (List CommandSet)
  | .arr xs => traverseOpt decodeCommandSet xs
  | _ => none

/-- serde deserialization of `Config` (derived `Deserialize`). -/
def decodeConfig : JValue → Option Config
  | .obj fields =>
    match jLookup fields "directories" with
    | none => none
    | some jd =>
      match decodeStrList jd with
      | none => none
      | some ds =>
        match jLookup fields "command_sets" with
        | none => none
        | some js =>
          match decodeSetList js with
          | none => none
          | some ss => some { directories := ds, command_sets := ss }
  | _ => none

lemma traverseOpt_map_str (l : List String) :
    traverseOpt decodeStr (l.map JValue.str) = some l := by
  induction l with
  | nil => rfl
  | cons a as ih => simp [traverseOpt, decodeStr, ih]

lemma decodeCommandSet_encodeCommandSet (s : CommandSet) :
    decodeCommandSet (encodeCommandSet s) = some s := by
  simp [decodeCommandSet, encodeCommandSet, jLookup, List.find?, decodeStr,
    decodeStrList, traverseOpt_map_str]

lemma traverseOpt_map_set (l : List CommandSet) :
    traverseOpt decodeCommandSet (l.map encodeCommandSet) = some l := by
  induction l with
  | nil => rfl
  | cons a as ih => simp [traverseOpt, decodeCommandSet_encodeCommandSet, ih]

lemma decodeConfig_encodeConfig (c : Config) :
    decodeConfig (encodeConfig c) = some c := by
  simp [decodeConfig, encodeConfig, jLookup, List.find?, decodeStrList,
    traverseOpt_map_str, decodeSetList, traverseOpt_map_set]

/-- Constant `CONFIG_FILE` from src/main.rs. -/
def CONFIG_FILE : String := "config.json"

/-- File system state: each path maps to a stored JSON document or nothing. -/
def FileSys := String → Option JValue

/-- Model of `load_config` from src/main.rs: a missing file is substituted by the empty
document; stored content is deserialized, parse failure panics (`none`). -/
def load_config (fs : FileSys) : Option Config :=
  match fs CONFIG_FILE with
  | none => some { directories := [], command_sets := [] }
  | some j => decodeConfig j

/-- Model of `save_config` from src/main.rs: serializes the config and overwrites the
config file. -/
def save_config (fs : FileSys) (c : Config) : FileSys :=
  fun p => if p = CONFIG_FILE then some (encodeConfig c) else fs p

/-- C5: for every Config value `c`, `save_config` followed by `load_config`
yields `c` (round-trip identity). -/
theorem save_then_load_roundtrip (fs : FileSys) (c : Config) :
    load_config (save_config fs c) = some c := by
  simp [load_config, save_config, decodeConfig_encodeConfig]

/-- The hard-coded special-cased command literal in `execute_commands`. -/
def DEV_COMMAND : String := "npm run dev"

/-- Model of `execute_commands` from src/main.rs, abstracted over an exit-status oracle
`exitOk` for foreground shell commands. Returns the list of commands that were
started, paired with whether `log_execution` was reached. The special-cased
command never fails (it is spawned, time-boxed and killed); a foreground
command with non-zero status stops the loop via `return`, skipping the log. -/
def execute_commands (exitOk : String → Bool) : List String → List String × Bool
  | [] => ([], true)
  | c :: rest =>
    if c = DEV_COMMAND then
      let r := execute_commands exitOk rest
      (c :: r.1, r.2)
    else if exitOk c then
      let r := execute_commands exitOk rest
      (c :: r.1, r.2)
    else ([c], false)

/-- A command "completes" when it is the special-cased one (always killed,
never considered failed) or its foreground exit status is success. -/
def completes (exitOk : String → Bool) (c : String) : Bool :=
  c == DEV_COMMAND || exitOk c

/-- C1: a log entry is appended exactly when every command completes; a
non-zero foreground exit halts execution after that command with no log; in
particular `["true", "false", "true"]` halts after the second command,
unlogged. -/
theorem execute_commands_halt_and_log (exitOk : String → Bool) :
    (∀ cmds, (execute_commands exitOk cmds).2 = cmds.all (completes exitOk)) ∧
    (∀ pre c post, c ≠ DEV_COMMAND → exitOk c = false →
      (∀ d ∈ pre, completes exitOk d = true) →
      execute_commands exitOk (pre ++ c :: post) = (pre ++ [c], false)) ∧
    (exitOk "true" = true → exitOk "false" = false →
      execute_commands exitOk ["true", "false", "true"] = (["true", "false"], false)) := by
  refine ⟨?_, ?_, ?_⟩
  · intro cmds
    induction cmds with
    | nil => rfl
    | cons c rest ih =>
      by_cases hdev : c = DEV_COMMAND
      · simp [execute_commands, hdev, ih, completes]
      · by_cases hok : exitOk c = true
        · simp [execute_commands, hdev, hok, ih, completes]
        · simp at hok
          simp [execute_commands, hdev, hok, completes]
  · intro pre c post hdev hfail hpre
    induction pre with
    | nil => simp [execute_commands, hdev, hfail]
    | cons d ds ih =>
      have hd : completes exitOk d = true := hpre d (by simp)
      have hds : ∀ e ∈ ds, completes exitOk e = true := fun e he => hpre e (by simp [he])
      have ih2 := ih hds
      have hd2 : d = DEV_COMMAND ∨ exitOk d = true := by simpa [completes] using hd
      rcases hd2 with h1 | h2
      · simp only [List.cons_append, execute_commands, if_pos h1]
        simp [ih2]
      · by_cases hdev2 : d = DEV_COMMAND
        · simp only [List.cons_append, execute_commands, if_pos hdev2]
          simp [ih2]
        · simp only [List.cons_append, execute_commands, if_neg hdev2, if_pos h2]
          simp [ih2]
  · intro htrue hfalse
    simp [execute_commands, DEV_COMMAND, htrue, hfalse]

/-- Witness: with the real exit statuses of `true` and `false`, the set
`["true", "false", "true"]` halts after the second command with no log, and
the failing-prefix clause applies at `pre = ["true"]`. -/
theorem execute_commands_halt_and_log_w :
    execute_commands (fun s => s == "true") ["true", "false", "true"]
      = (["true", "false"], false) ∧
    execute_commands (fun s => s == "true") (["true"] ++ "false" :: ["true"])
      = (["true"] ++ ["false"], false) :=
  ⟨(execute_commands_halt_and_log (fun s => s == "true")).2.2 (by decide) (by decide),
   (execute_commands_halt_and_log (fun s => s == "true")).2.1 ["true"] "false" ["true"]
     (by decide) (by decide) (by decide)⟩

/-- Events of the special-cased `npm run dev` branch of `execute_commands`,
in the order the source performs them. -/
inductive SpecialEv where
  | spawn
  | sleepWindow
  | kill
  | sendStop
  | joinSpinner
  | confirm
deriving DecidableEq, Repr

/-- Event trace of the special-cased branch, read off src/main.rs lines
46-72: spawn the child, sleep the fixed 10-second window, kill the child,
send the one-shot stop signal, join the spinner thread, print confirmation. -/
def specialCaseEvents : List SpecialEv :=
  [.spawn, .sleepWindow, .kill, .sendStop, .joinSpinner, .confirm]

/-- The special-cased branch with a kill-success oracle: `child.kill()` is
wrapped in `expect`, so a failed kill panics (`none`) before the branch can
finish. -/
def runSpecialCase (killOk : Bool) : Option (List SpecialEv) :=
  if killOk then some specialCaseEvents else none

/-- C2 counterexample: in the code the subprocess is killed strictly before
the stop signal is sent to the spinner, contradicting the claimed
stop-then-join-then-kill order. -/
theorem special_case_stop_before_kill_false :
    ¬ specialCaseEvents.indexOf SpecialEv.sendStop
        < specialCaseEvents.indexOf SpecialEv.kill := by
  decide

/-- C2 (amended): after the fixed window the subprocess is killed first, then
the stop signal is sent and the spinner thread joined before the confirmation
message and the next command; a failed kill is fatal. -/
theorem special_case_order :
    specialCaseEvents.indexOf SpecialEv.sleepWindow
        < specialCaseEvents.indexOf SpecialEv.kill ∧
    specialCaseEvents.indexOf SpecialEv.kill
        < specialCaseEvents.indexOf SpecialEv.sendStop ∧
    specialCaseEvents.indexOf SpecialEv.sendStop
        < specialCaseEvents.indexOf SpecialEv.joinSpinner ∧
    specialCaseEvents.indexOf SpecialEv.joinSpinner
        < specialCaseEvents.indexOf SpecialEv.confirm ∧
    runSpecialCase true = some specialCaseEvents ∧
    runSpecialCase false = none := by
  decide

/-- Action chosen by the `main` dispatcher, one per match arm. -/
inductive Action where
  | runFlow
  | listSets
  | deleteSet (name : String)
  | exportFlow
  | helpMsg
  | unknownCmd
  | usageMsg
deriving DecidableEq, Repr

/-- The `main` dispatcher from src/main.rs over the full argv (program name
first). A failed `"delete"` guard (`args.len() > 2`) falls through to the
wildcard arm, as in the Rust `match`. -/
def dispatch : List String → Action
  | _ :: cmd :: rest =>
    if cmd = "run" then .runFlow
    else if cmd = "list" then .listSets
    else if cmd = "delete" then
      match rest with
      | arg2 :: _ => .deleteSet arg2
      | [] => .unknownCmd
    else if cmd = "export" then .exportFlow
    else if cmd = "--help" ∨ cmd = "help" then .helpMsg
    else .unknownCmd
  | _ => .usageMsg

/-- Whether the dispatched branch touches the config file at all, read off
each branch body in src/main.rs: `run`, `list_commands`, `delete_command` and
`export_config` all call `load_config`; `help`, the unknown arm and the
no-argument usage line do not. -/
def touchesConfigFile : Action → Bool
  | .runFlow => true
  | .listSets => true
  | .deleteSet _ => true
  | .exportFlow => true
  | .helpMsg => false
  | .unknownCmd => false
  | .usageMsg => false

/-- Console messages the dispatcher itself can print. -/
inductive DispatcherMsg where
  | unknownHint
  | usageHint
deriving DecidableEq, Repr

/-- The hint printed directly by the dispatcher, if any: the unknown-command
arm prints the unknown-command hint and the no-argument path the usage line. -/
def dispatcherHint : Action → Option DispatcherMsg
  | .unknownCmd => some .unknownHint
  | .usageMsg => some .usageHint
  | _ => none

/-- C3 counterexample: `logs` is not a recognized subcommand; it lands in the
wildcard unknown-command arm of the dispatcher. -/
theorem dispatch_logs_is_unknown :
    dispatch ["cmdy", "logs"] = Action.unknownCmd := by
  decide

/-- C3 (amended): the dispatcher does not recognize a `logs` subcommand: for
any trailing arguments, `logs` falls to the unknown-command arm, which prints
the unknown-command hint and never touches the config or log files. -/
theorem dispatch_logs_unrecognized (rest : List String) :
    dispatch ("cmdy" :: "logs" :: rest) = Action.unknownCmd ∧
    dispatcherHint Action.unknownCmd = some DispatcherMsg.unknownHint ∧
    touchesConfigFile Action.unknownCmd = false := by
  refine ⟨?_, rfl, rfl⟩
  simp [dispatch]

/-- C9: `delete` with no further argument fails the `args.len() > 2` guard
and falls to the unknown-command arm: the hint is printed and the config file
is neither read nor modified. -/
theorem dispatch_delete_without_arg :
    dispatch ["cmdy", "delete"] = Action.unknownCmd ∧
    dispatcherHint Action.unknownCmd = some DispatcherMsg.unknownHint ∧
    touchesConfigFile Action.unknownCmd = false := by
  decide

/-- The directory-selection step of `run` from src/main.rs lines 173-185:
`sel = 0` is the current-directory sentinel, `sel = |dirs| + 1` the
new-directory sentinel (which appends and saves), anything else indexes the
stored list at `sel - 1` (out-of-range indexing panics, modelled as `none`).
Returns the chosen directory, the directory list afterwards, and whether
`save_config` was called. -/
def chooseDirectory (dirs : List String) (cwd newDir : String) (sel : Nat) :
    Option (String × List String × Bool) :=
  if sel = 0 then some (cwd, dirs, false)
  else if sel = dirs.length + 1 then some (newDir, dirs ++ [newDir], true)
  else
    match dirs.get? (sel - 1) with
    | some d => some (d, dirs, false)
    | none => none

/-- C4: index 0 resolves to the current working directory for any stored
list; index `N + 1` prompts for a path, appends it and saves; an index `i`
with `1 ≤ i ≤ N` resolves to the stored directory at position `i - 1`. -/
theorem chooseDirectory_menu (dirs : List String) (cwd newDir : String) :
    chooseDirectory dirs cwd newDir 0 = some (cwd, dirs, false) ∧
    chooseDirectory dirs cwd newDir (dirs.length + 1)
      = some (newDir, dirs ++ [newDir], true) ∧
    (∀ i, 1 ≤ i → i ≤ dirs.length →
      ∃ d, dirs.get? (i - 1) = some d ∧
        chooseDirectory dirs cwd newDir i = some (d, dirs, false)) := by
  refine ⟨rfl, by simp [chooseDirectory], ?_⟩
  intro i h1 h2
  have hlt : i - 1 < dirs.length := by omega
  refine ⟨dirs.get ⟨i - 1, hlt⟩, List.get?_eq_get hlt, ?_⟩
  have h0 : i ≠ 0 := by omega
  have hN : i ≠ dirs.length + 1 := by omega
  rw [chooseDirectory, if_neg h0, if_neg hN, List.get?_eq_get hlt]

/-- Witness: with one stored directory, index 0 gives the cwd, index 2
appends the new path, index 1 gives the stored entry. -/
theorem chooseDirectory_menu_w :
    chooseDirectory ["proj"] "cwd" "fresh" 0 = some ("cwd", ["proj"], false) ∧
    chooseDirectory ["proj"] "cwd" "fresh" 2
      = some ("fresh", ["proj", "fresh"], true) ∧
    ∃ d, ["proj"].get? 0 = some d ∧
      chooseDirectory ["proj"] "cwd" "fresh" 1 = some (d, ["proj"], false) :=
  ⟨(chooseDirectory_menu ["proj"] "cwd" "fresh").1,
   (chooseDirectory_menu ["proj"] "cwd" "fresh").2.1,
   (chooseDirectory_menu ["proj"] "cwd" "fresh").2.2 1 (by decide) (by decide)⟩

/-- Rust `str::split(sep)`: cut the character sequence at every occurrence
of the separator, keeping empty segments (leading, inner and trailing). -/
def splitChar (sep : Char) : List Char → List (List Char)
  | [] => [[]]
  | c :: rest =>
    let r := splitChar sep rest
    if c = sep then [] :: r
    else
      match r with
      | [] => [[c]]
      | g :: gs => (c :: g) :: gs

/-- Rust `str::trim`: drop leading and trailing whitespace characters. -/
def trimChars (cs : List Char) : List Char :=
  ((cs.dropWhile Char.isWhitespace).reverse.dropWhile Char.isWhitespace).reverse

/-- The comma split of the commands input in `run` (src/main.rs line 217):
`commands_input.split(',').map(|s| s.trim().to_string())`, no filtering. -/
def parseCommands (s : String) : List String :=
  (splitChar ',' s.toList).map (fun g => String.mk (trimChars g))

/-- C7: each comma-delimited segment is mapped to its trimmed form with no
segment filtered, and the input "a, b ,c," yields exactly
["a", "b", "c", ""]. -/
theorem parseCommands_unfiltered_trim :
    parseCommands "a, b ,c," = ["a", "b", "c", ""] ∧
    (∀ s, (parseCommands s).length = (splitChar ',' s.toList).length) := by
  exact ⟨by decide, fun s => by simp [parseCommands]⟩

/-- The command-set step of `run` from src/main.rs lines 211-228: when no
stored set bears the chosen name, the comma-separated input is parsed, a new
`CommandSet` is pushed and the config saved; then the set to execute is the
first stored set with that name. Returns the set list afterwards, whether the
creation branch ran (prompt for commands plus `save_config`), and the set
chosen for execution. -/
def resolveCommandSet (sets : List CommandSet) (name commandsInput : String) :
    List CommandSet × Bool × Option CommandSet :=
  let sets2 :=
    if sets.any (fun s => s.name == name) then sets
    else sets ++ [{ name := name, commands := parseCommands commandsInput }]
  let created := !(sets.any (fun s => s.name == name))
  (sets2, created, sets2.find? (fun s => s.name == name))

/-- C6: when the typed name matches an existing set, the flow selects that
set: the command-list prompt and the save are skipped, no duplicate is
appended, the input is irrelevant, and the first stored set with that name is
executed. -/
theorem resolveCommandSet_existing (sets : List CommandSet)
    (name commandsInput : String)
    (h : sets.any (fun s => s.name == name) = true) :
    (resolveCommandSet sets name commandsInput).1 = sets ∧
    (resolveCommandSet sets name commandsInput).2.1 = false ∧
    (∀ other, resolveCommandSet sets name other
      = resolveCommandSet sets name commandsInput) ∧
    (∃ s, (resolveCommandSet sets name commandsInput).2.2 = some s ∧
      s ∈ sets ∧ s.name = name ∧
      sets.find? (fun s2 => s2.name == name) = some s) := by
  refine ⟨by simp [resolveCommandSet, h], by simp [resolveCommandSet, h],
    fun other => by simp [resolveCommandSet, h], ?_⟩
  obtain ⟨s, hmem, hname⟩ := List.any_eq_true.mp h
  have hsome : (sets.find? (fun s2 => s2.name == name)).isSome := by
    rw [List.find?_isSome]
    exact ⟨s, hmem, hname⟩
  obtain ⟨t, ht⟩ := Option.isSome_iff_exists.mp hsome
  exact ⟨t, by simp [resolveCommandSet, h, ht], List.mem_of_find?_eq_some ht,
    by simpa using List.find?_some ht, ht⟩

/-- Witness: with a stored set named "build", typing "build" again reuses it
without creating a duplicate. -/
theorem resolveCommandSet_existing_w :
    (resolveCommandSet [{ name := "build", commands := ["make"] }] "build" "x").1
      = [{ name := "build", commands := ["make"] }] ∧
    (resolveCommandSet [{ name := "build", commands := ["make"] }] "build" "x").2.1
      = false :=
  ⟨(resolveCommandSet_existing [{ name := "build", commands := ["make"] }]
      "build" "x" (by decide)).1,
   (resolveCommandSet_existing [{ name := "build", commands := ["make"] }]
      "build" "x" (by decide)).2.1⟩

/-- Model of `delete_command` from src/main.rs: retains the sets whose name differs
from the argument, then unconditionally saves and prints the deletion
message. Returns the new config and whether save-and-print happened. -/
def delete_command (cfg : Config) (name : String) : Config × Bool :=
  ({ cfg with command_sets := cfg.command_sets.filter (fun s => s.name != name) },
   true)

/-- C8: `delete_command` removes every set whose name equals the argument,
keeps the rest in order, leaves `directories` untouched, always rewrites the
config and prints, and is a no-op on the set list when no name matches. -/
theorem delete_command_frame (cfg : Config) (name : String) :
    (delete_command cfg name).1.directories = cfg.directories ∧
    (∀ s ∈ (delete_command cfg name).1.command_sets, s.name ≠ name) ∧
    (∀ s ∈ cfg.command_sets, s.name ≠ name →
      s ∈ (delete_command cfg name).1.command_sets) ∧
    (delete_command cfg name).1.command_sets.Sublist cfg.command_sets ∧
    (delete_command cfg name).2 = true ∧
    ((∀ s ∈ cfg.command_sets, s.name ≠ name) →
      (delete_command cfg name).1.command_sets = cfg.command_sets) := by
  refine ⟨rfl, ?_, ?_, ?_, rfl, ?_⟩
  · intro s hs
    have := List.of_mem_filter hs
    simpa using this
  · intro s hs hne
    exact List.mem_filter.mpr ⟨hs, by simpa using hne⟩
  · exact List.filter_sublist _
  · intro habs
    exact List.filter_eq_self.mpr (fun s hs => by simpa using habs s hs)

/-- A sample stored config used to exercise `delete_command`. -/
def sampleConfig : Config :=
  { directories := ["d"],
    command_sets := [{ name := "build", commands := ["make"] }] }

/-- Witness: deleting "gone", absent from the stored sets, leaves both stored
lists unchanged while still saving and printing. -/
theorem delete_command_frame_w :
    (delete_command sampleConfig "gone").1.directories = sampleConfig.directories ∧
    (delete_command sampleConfig "gone").1.command_sets = sampleConfig.command_sets ∧
    (delete_command sampleConfig "gone").2 = true := by
  have h := delete_command_frame sampleConfig "gone"
  exact ⟨h.1, h.2.2.2.2.2 (by decide), h.2.2.2.2.1⟩

/-- Model of `export_config` from src/main.rs: loads the config (panic on parse
failure propagates), takes the prompted output path (the dialoguer default
"backup.json" when the prompt is accepted empty), and writes the
pretty-printed serialization there, without calling `save_config`. -/
def export_config (fs : FileSys) (pathInput : Option String) : Option FileSys :=
  match load_config fs with
  | none => none
  | some cfg =>
    let path := pathInput.getD "backup.json"
    some (fun p => if p = path then some (encodeConfig cfg) else fs p)

/-- C10: the dispatcher accepts `export`; the flow loads the config, writes
its serialization at the prompted path (default "backup.json"), leaves every
other file - in particular the config file - unchanged, and the stored
config still loads to the same value afterwards. -/
theorem export_config_spec (fs : FileSys) (pathInput : Option String)
    (cfg : Config) (h : load_config fs = some cfg) :
    dispatch ["cmdy", "export"] = Action.exportFlow ∧
    ∃ fs2, export_config fs pathInput = some fs2 ∧
      fs2 (pathInput.getD "backup.json") = some (encodeConfig cfg) ∧
      (∀ p, p ≠ pathInput.getD "backup.json" → fs2 p = fs p) ∧
      (pathInput.getD "backup.json" ≠ CONFIG_FILE →
        fs2 CONFIG_FILE = fs CONFIG_FILE) ∧
      load_config fs2 = some cfg := by
  refine ⟨by decide, fun p => if p = pathInput.getD "backup.json"
    then some (encodeConfig cfg) else fs p, by simp [export_config, h], by simp,
    fun p hp => by simp [hp],
    fun hne => by
      have hne2 : CONFIG_FILE ≠ pathInput.getD "backup.json" := fun hc => hne hc.symm
      simp [hne2], ?_⟩
  by_cases hc : CONFIG_FILE = pathInput.getD "backup.json"
  · simp [load_config, hc, decodeConfig_encodeConfig]
  · simpa [load_config, hc] using h

/-- Witness: exporting from an empty file system with the default path
succeeds and writes the empty config at "backup.json". -/
theorem export_config_spec_w :
    dispatch ["cmdy", "export"] = Action.exportFlow ∧
    ∃ fs2, export_config (fun _ => none) none = some fs2 ∧
      fs2 "backup.json"
        = some (encodeConfig { directories := [], command_sets := [] }) := by
  obtain ⟨h1, fs2, h2, h3, -⟩ :=
    export_config_spec (fun _ => none) none
      { directories := [], command_sets := [] } rfl
  exact ⟨h1, fs2, h2, by simpa using h3⟩

end Cmdy
